import Mathlib

/-!
Verification development for the observer core of the RxPython repository
(`src/rx/observer.py`, with `src/observer.py` as the earlier revision).

Each Python class is shallowly embedded as pure Lean functions over explicit
state records.  External collaborators of the repository whose code is not
under `src/` (the `rx.concurrency.Atomic` cell, the scheduler capabilities and
the disposable primitives) are modelled from the specification's capability
contracts; the corresponding definitions say so in their doc comments.
Calls into a wrapped inner observer are parameterised by a behaviour function
telling which deliveries raise; handler invocations are collected in event
lists so that ordering and counting properties can be stated.
-/

namespace RxPython

/-! ### ObserverBase (src/rx/observer.py, lines 60-103)

`isStopped` is an `Atomic(False)` cell.  Modelled from the spec: the atomic
cell's `exchange` writes the new value and returns the prior one, and its
plain read/write are sequentially ordinary accesses (the `rx.concurrency`
module is not under `src/`; spec 4.1 "atomically test-and-set the stopped
flag").  Sequential semantics: each operation returns the successor state and
the list of core-handler invocations it performed. -/

inductive CoreCall where
  | nextCore (v : Nat)
  | errorCore (e : Nat)
  | completedCore
deriving DecidableEq, Repr

structure OBState where
  isStopped : Bool
deriving DecidableEq, Repr

def obOnNext (s : OBState) (v : Nat) : OBState × List CoreCall :=
  if s.isStopped then (s, []) else (s, [CoreCall.nextCore v])

def obOnError (s : OBState) (e : Nat) : OBState × List CoreCall :=
  if s.isStopped then (s, []) else (⟨true⟩, [CoreCall.errorCore e])

def obOnCompleted (s : OBState) : OBState × List CoreCall :=
  if s.isStopped then (s, []) else (⟨true⟩, [CoreCall.completedCore])

def obDispose (_s : OBState) : OBState × List CoreCall :=
  (⟨true⟩, [])

def obFail (s : OBState) (e : Nat) : OBState × List CoreCall × Bool :=
  if s.isStopped then (s, [], false) else (⟨true⟩, [CoreCall.errorCore e], true)

/-! ### CheckedObserver (src/rx/observer.py, lines 188-228)

`checkAccess` is a compare-exchange of `BUSY` for expected `IDLE` on the
state cell followed by a dispatch on the returned prior value; the forwarded
call runs under `try/finally`, so the closing transition happens even when
the inner observer raises. -/

inductive CheckedState where
  | idle
  | busy
  | done
deriving DecidableEq, Repr

inductive CViol where
  | busyViolation
  | doneViolation
deriving DecidableEq, Repr

def violMessage : CViol → String
  | CViol.busyViolation => "This observer is currently busy"
  | CViol.doneViolation => "This observer already terminated"

def checkAccess : CheckedState → CheckedState × Option CViol
  | CheckedState.idle => (CheckedState.busy, none)
  | CheckedState.busy => (CheckedState.busy, some CViol.busyViolation)
  | CheckedState.done => (CheckedState.done, some CViol.doneViolation)

inductive CResult where
  | violation (v : CViol)
  | forwarded (raised : Bool)
deriving DecidableEq, Repr

def checkedOnNext (s : CheckedState) (innerRaises : Bool) : CheckedState × CResult :=
  match checkAccess s with
  | (s2, some v) => (s2, CResult.violation v)
  | (_, none) => (CheckedState.idle, CResult.forwarded innerRaises)

def checkedOnError (s : CheckedState) (innerRaises : Bool) : CheckedState × CResult :=
  match checkAccess s with
  | (s2, some v) => (s2, CResult.violation v)
  | (_, none) => (CheckedState.done, CResult.forwarded innerRaises)

def checkedOnCompleted (s : CheckedState) (innerRaises : Bool) : CheckedState × CResult :=
  match checkAccess s with
  | (s2, some v) => (s2, CResult.violation v)
  | (_, none) => (CheckedState.done, CResult.forwarded innerRaises)

/-! ### ListObserver (src/rx/observer.py, lines 459-486)

Observers are identified by natural numbers.  The broadcast loops are
translated as structural recursion over the member list; `add` appends to the
tuple, `remove` drops the first occurrence found via `tuple.index` (translated
as `listIndex`), returning `self` unchanged when the observer is absent. -/

inductive BEv where
  | bnext (o : Nat) (v : Nat)
  | berror (o : Nat) (e : Nat)
  | bcompleted (o : Nat)
deriving DecidableEq, Repr

structure ListObs where
  observers : List Nat
deriving DecidableEq, Repr

def broadcastNext (obs : List Nat) (v : Nat) : List BEv :=
  match obs with
  | [] => []
  | o :: rest => BEv.bnext o v :: broadcastNext rest v

def broadcastError (obs : List Nat) (e : Nat) : List BEv :=
  match obs with
  | [] => []
  | o :: rest => BEv.berror o e :: broadcastError rest e

def broadcastCompleted (obs : List Nat) : List BEv :=
  match obs with
  | [] => []
  | o :: rest => BEv.bcompleted o :: broadcastCompleted rest

def loOnNext (l : ListObs) (v : Nat) : List BEv := broadcastNext l.observers v

def loOnError (l : ListObs) (e : Nat) : List BEv := broadcastError l.observers e

def loOnCompleted (l : ListObs) : List BEv := broadcastCompleted l.observers

def loAdd (l : ListObs) (o : Nat) : ListObs := ⟨l.observers ++ [o]⟩

def listIndex (o : Nat) : List Nat → Nat
  | [] => 0
  | x :: xs => if x = o then 0 else listIndex o xs + 1

def loRemove (l : ListObs) (o : Nat) : ListObs :=
  if o ∈ l.observers then
    ⟨l.observers.take (listIndex o l.observers) ++
      l.observers.drop (listIndex o l.observers + 1)⟩
  else l

lemma broadcastNext_eq_map (obs : List Nat) (v : Nat) :
    broadcastNext obs v = obs.map (fun o => BEv.bnext o v) := by
  induction obs with
  | nil => rfl
  | cons o rest ih => simp [broadcastNext, ih]

lemma broadcastError_eq_map (obs : List Nat) (e : Nat) :
    broadcastError obs e = obs.map (fun o => BEv.berror o e) := by
  induction obs with
  | nil => rfl
  | cons o rest ih => simp [broadcastError, ih]

lemma broadcastCompleted_eq_map (obs : List Nat) :
    broadcastCompleted obs = obs.map (fun o => BEv.bcompleted o) := by
  induction obs with
  | nil => rfl
  | cons o rest ih => simp [broadcastCompleted, ih]

lemma take_drop_listIndex (pre post : List Nat) (o : Nat) (hpre : o ∉ pre) :
    (pre ++ o :: post).take (listIndex o (pre ++ o :: post)) ++
      (pre ++ o :: post).drop (listIndex o (pre ++ o :: post) + 1) = pre ++ post := by
  induction pre with
  | nil => simp [listIndex]
  | cons x xs ih =>
      have hx : x ≠ o := by
        intro h
        exact hpre (by simp [h])
      have hxs : o ∉ xs := fun h => hpre (List.mem_cons_of_mem _ h)
      simp [listIndex, hx, ih hxs]

/-! ### Claim theorems over the base, checked and list observers -/

/-- Claim C1: in the grammar base `ObserverBase`, once the stopped flag is set
(by `onError`, `onCompleted` or `dispose`), every later `onNext`, `onError`
and `onCompleted` call performs no core-handler invocation and leaves the
state stopped; each terminal transition yields the stopped state, and
`dispose` itself forwards no notification. -/
theorem observerBase_terminal_idempotent (v e e2 : Nat) :
    obOnNext ⟨true⟩ v = (⟨true⟩, []) ∧
    obOnError ⟨true⟩ e = (⟨true⟩, []) ∧
    obOnCompleted ⟨true⟩ = (⟨true⟩, []) ∧
    (obOnError ⟨false⟩ e2).1 = ⟨true⟩ ∧
    (obOnCompleted ⟨false⟩).1 = ⟨true⟩ ∧
    obDispose ⟨false⟩ = (⟨true⟩, []) ∧
    obDispose ⟨true⟩ = (⟨true⟩, []) := by
  refine ⟨rfl, rfl, rfl, rfl, rfl, rfl, rfl⟩

/-- Claim C9: `ObserverBase.fail` on a not-yet-stopped observer performs the
stop transition, invokes `onErrorCore` exactly once and returns `true`; on an
already-stopped observer it returns `false`, invokes no core handler and
leaves the state unchanged. -/
theorem observerBase_fail_reports_transition (e : Nat) :
    obFail ⟨false⟩ e = (⟨true⟩, [CoreCall.errorCore e], true) ∧
    obFail ⟨true⟩ e = (⟨true⟩, [], false) := by
  exact ⟨rfl, rfl⟩

/-- Claim C6: the checked guard raises the concurrency violation ("This
observer is currently busy") from the `Busy` state and the lifecycle
violation ("This observer already terminated") from the `Done` state, leaving
the state unchanged; from `Idle` it forwards and finishes in `Idle` for
`onNext` and in `Done` for `onError`/`onCompleted`, with the closing
transition happening even when the forwarded call raises. -/
theorem checkedObserver_state_machine :
    ∀ r : Bool,
      checkedOnNext CheckedState.busy r =
        (CheckedState.busy, CResult.violation CViol.busyViolation) ∧
      checkedOnError CheckedState.busy r =
        (CheckedState.busy, CResult.violation CViol.busyViolation) ∧
      checkedOnCompleted CheckedState.busy r =
        (CheckedState.busy, CResult.violation CViol.busyViolation) ∧
      checkedOnNext CheckedState.done r =
        (CheckedState.done, CResult.violation CViol.doneViolation) ∧
      checkedOnError CheckedState.done r =
        (CheckedState.done, CResult.violation CViol.doneViolation) ∧
      checkedOnCompleted CheckedState.done r =
        (CheckedState.done, CResult.violation CViol.doneViolation) ∧
      checkedOnNext CheckedState.idle r = (CheckedState.idle, CResult.forwarded r) ∧
      checkedOnError CheckedState.idle r = (CheckedState.done, CResult.forwarded r) ∧
      checkedOnCompleted CheckedState.idle r =
        (CheckedState.done, CResult.forwarded r) ∧
      violMessage CViol.busyViolation = "This observer is currently busy" ∧
      violMessage CViol.doneViolation = "This observer already terminated" := by
  decide

/-- Claim C8: `ListObserver` broadcasts each notification to all members in
registration order; `add` returns a new instance whose member list is the old
one with the observer appended (so a broadcast through the new reference ends
with the new member while a broadcast through the old reference is
unchanged), and `remove` returns `self` when the observer is absent and
otherwise a new instance with the first occurrence dropped; neither operation
yields the original member list when it changes membership. -/
theorem listObserver_immutable_ops (l : ListObs) (o o2 v e : Nat)
    (pre post : List Nat)
    (hsplit : l.observers = pre ++ o :: post) (hpre : o ∉ pre)
    (habs : o2 ∉ l.observers) :
    loOnNext l v = l.observers.map (fun x => BEv.bnext x v) ∧
    loOnError l e = l.observers.map (fun x => BEv.berror x e) ∧
    loOnCompleted l = l.observers.map (fun x => BEv.bcompleted x) ∧
    (loAdd l o2).observers = l.observers ++ [o2] ∧
    loOnNext (loAdd l o2) v = loOnNext l v ++ [BEv.bnext o2 v] ∧
    loRemove l o2 = l ∧
    (loRemove l o).observers = pre ++ post ∧
    (loAdd l o2).observers ≠ l.observers ∧
    (loRemove l o).observers ≠ l.observers := by
  have hmem : o ∈ l.observers := by
    rw [hsplit]; exact List.mem_append_right _ (List.mem_cons_self _ _)
  have hrem : (loRemove l o).observers = pre ++ post := by
    rw [loRemove, if_pos hmem, hsplit]
    exact take_drop_listIndex pre post o hpre
  refine ⟨broadcastNext_eq_map _ _, broadcastError_eq_map _ _,
    broadcastCompleted_eq_map _, rfl, ?_, ?_, hrem, ?_, ?_⟩
  · simp [loOnNext, loAdd, broadcastNext_eq_map]
  · rw [loRemove, if_neg habs]
  · intro h
    have := congrArg List.length h
    simp [loAdd] at this
  · rw [hrem, hsplit]
    intro h
    have := congrArg List.length h
    simp at this

/-- Witness for C8 at a concrete instance: the member list `[1, 2]` with
observer `2` removed and observer `3` added. -/
theorem listObserver_immutable_ops_witness :
    (loRemove ⟨[1, 2]⟩ 2).observers = [1] ∧
    (loAdd ⟨[1, 2]⟩ 3).observers = [1, 2, 3] ∧
    loOnNext ⟨[1, 2]⟩ 5 = [BEv.bnext 1 5, BEv.bnext 2 5] := by
  have h := listObserver_immutable_ops ⟨[1, 2]⟩ 2 3 5 7 [1] []
    (by decide) (by decide) (by decide)
  refine ⟨h.2.2.2.2.2.2.1, h.2.2.2.1, ?_⟩
  rw [h.1]
  decide

/-! ### AutoDetachObserver (src/rx/observer.py, lines 142-185)

The wrapper derives from `ObserverBase`, so each operation first goes through
the stopped-flag discipline of lines 70-86 before reaching the core handler.
`self.m` is the owned subscription slot.  Modelled from the spec:
`SingleAssignmentDisposable.dispose` (the disposable module is not under
`src/`; spec 3/6: "`dispose()` idempotent", "single-assignment slot") marks
the slot disposed and releases the underlying subscription exactly on the
first call — the release is recorded as the `subDisposed` event.  Inner
handler invocations are recorded as events; the boolean parameter of each
operation tells whether the forwarded inner call raises, and the boolean in
the result tells whether the operation propagates an exception to its
caller. -/

structure ADState where
  isStopped : Bool
  mDisposed : Bool
deriving DecidableEq, Repr

inductive ADEv where
  | innerNext
  | innerError
  | innerCompleted
  | subDisposed
deriving DecidableEq, Repr

def adDisposeM (s : ADState) : ADState × List ADEv :=
  if s.mDisposed then (s, [])
  else ({ s with mDisposed := true }, [ADEv.subDisposed])

def adDispose (s : ADState) : ADState × List ADEv :=
  adDisposeM { s with isStopped := true }

def adOnNext (s : ADState) (raises : Bool) : ADState × List ADEv × Bool :=
  if s.isStopped then (s, [], false)
  else if raises then
    let (s1, evs) := adDispose s
    (s1, ADEv.innerNext :: evs, true)
  else (s, [ADEv.innerNext], false)

def adOnError (s : ADState) (raises : Bool) : ADState × List ADEv × Bool :=
  if s.isStopped then (s, [], false)
  else
    let (s1, evs) := adDispose { s with isStopped := true }
    (s1, ADEv.innerError :: evs, raises)

def adOnCompleted (s : ADState) (raises : Bool) : ADState × List ADEv × Bool :=
  if s.isStopped then (s, [], false)
  else
    let (s1, evs) := adDispose { s with isStopped := true }
    (s1, ADEv.innerCompleted :: evs, raises)

def adDisposeOp (s : ADState) : ADState × List ADEv × Bool :=
  let (s1, evs) := adDispose s
  (s1, evs, false)

inductive ADAct where
  | anext (r : Bool)
  | aerror (r : Bool)
  | acompleted (r : Bool)
  | adisp
deriving DecidableEq, Repr

def adApply (s : ADState) : ADAct → ADState × List ADEv × Bool
  | ADAct.anext r => adOnNext s r
  | ADAct.aerror r => adOnError s r
  | ADAct.acompleted r => adOnCompleted s r
  | ADAct.adisp => adDisposeOp s

def adRun (s : ADState) : List ADAct → ADState × List ADEv
  | [] => (s, [])
  | a :: rest =>
    let r1 := adApply s a
    let r2 := adRun r1.1 rest
    (r2.1, r1.2.1 ++ r2.2)

def freshAD : ADState := ⟨false, false⟩

def countSub (evs : List ADEv) : Nat := evs.count ADEv.subDisposed

def adPotential (s : ADState) : Nat := if s.mDisposed then 0 else 1

lemma adApply_sub_count (s : ADState) (a : ADAct) :
    countSub (adApply s a).2.1 + adPotential (adApply s a).1 ≤ adPotential s := by
  obtain ⟨st, md⟩ := s
  cases a with
  | anext r =>
      cases st <;> cases md <;> cases r <;>
        simp [adApply, adOnNext, adDispose, adDisposeM, adPotential, countSub]
  | aerror r =>
      cases st <;> cases md <;>
        simp [adApply, adOnError, adDispose, adDisposeM, adPotential, countSub]
  | acompleted r =>
      cases st <;> cases md <;>
        simp [adApply, adOnCompleted, adDispose, adDisposeM, adPotential, countSub]
  | adisp =>
      cases st <;> cases md <;>
        simp [adApply, adDisposeOp, adDispose, adDisposeM, adPotential, countSub]

lemma adRun_sub_count (acts : List ADAct) :
    ∀ s : ADState, countSub (adRun s acts).2 ≤ adPotential s := by
  induction acts with
  | nil => intro s; simp [adRun, countSub]
  | cons a rest ih =>
      intro s
      have h1 := adApply_sub_count s a
      have h2 := ih (adApply s a).1
      simp only [countSub] at h1 h2
      simp only [adRun, countSub, List.count_append]
      omega

/-- Claim C7: the auto-detach wrapper releases the owned subscription exactly
once over any sequence of operations from a fresh instance (never more than
once in total, and exactly once on each single terminating path); `onNext`
releases only when the forwarded call raises and does so before the exception
propagates (the `subDisposed` event precedes the propagated raise), while
`onError`/`onCompleted` release unconditionally after forwarding, including
when the forwarded call raises. -/
theorem autoDetach_subscription_disposed_once :
    (∀ acts : List ADAct, countSub (adRun freshAD acts).2 ≤ 1) ∧
    (∀ r : Bool,
      adOnError freshAD r = (⟨true, true⟩, [ADEv.innerError, ADEv.subDisposed], r) ∧
      adOnCompleted freshAD r =
        (⟨true, true⟩, [ADEv.innerCompleted, ADEv.subDisposed], r)) ∧
    adOnNext freshAD true = (⟨true, true⟩, [ADEv.innerNext, ADEv.subDisposed], true) ∧
    adOnNext freshAD false = (freshAD, [ADEv.innerNext], false) ∧
    countSub (adRun freshAD [ADAct.anext true]).2 = 1 ∧
    countSub (adRun freshAD [ADAct.aerror false]).2 = 1 ∧
    countSub (adRun freshAD [ADAct.acompleted false]).2 = 1 ∧
    countSub (adRun freshAD [ADAct.anext true, ADAct.aerror false]).2 = 1 := by
  refine ⟨?_, by decide, by decide, by decide, by decide, by decide, by decide, by decide⟩
  intro acts
  exact adRun_sub_count acts freshAD

/-! ### ScheduledObserver, trampoline strategy (src/rx/observer.py, lines 231-437)

Queued values are `Option Nat`: `none` models the Python `None`, which
`run` cannot distinguish from the `Empty` outcome of `queue.get_nowait()`
(lines 334-340).  `inner n = true` means the inner observer's `onNext` raises
on the value `n`; the inner observer's `onError`/`onCompleted` are assumed
not to raise.  Modelled from the spec: the `Atomic` state cell
(`rx.concurrency`, not under `src/`) offers `compareExchange(value,
expected)` — write `value` when the current content equals `expected` and
return the prior content (spec 9: "compare-and-swap ... with matching
old-value recovery") — and the trampoline scheduler's
`scheduleRecursiveWithState` (spec 6) runs the step at once with zero
latency, the step calling its continuation to request the next step.

`run` (lines 330-390) is translated as structural recursion over the queue.
Its exception branch sets the state to `FAULTED` and calls `clearQueue`
(lines 402-407), which loops on the blocking `Queue.get()`: blocking `get`
never raises `Empty` (only `get_nowait` does), so after draining the
remaining items the loop blocks on the empty queue and the `raise e` of
line 388 is never reached — recorded as the `blocked` outcome. -/

abbrev PyVal := Option Nat

inductive SchedState where
  | stopped
  | running
  | pending
  | faulted
deriving DecidableEq, Repr

inductive DelEv where
  | next (v : PyVal)
  | error (e : Option Nat)
  | completed
deriving DecidableEq, Repr

inductive RunOutcome where
  | returned
  | blocked
  | raised (e : Nat)
  | diverged
deriving DecidableEq, Repr

structure RunRes where
  events : List DelEv
  state : SchedState
  queue : List PyVal
  stoppedSet : Bool
  disposed : Bool
  outcome : RunOutcome
deriving DecidableEq, Repr

def runAux (inner : Nat → Bool) (failed completed : Bool) (exc : Option Nat) :
    List PyVal → SchedState → RunRes
  | [], st =>
    -- get_nowait raised Empty, so next is None and the queue is empty
    if failed then
      ⟨[DelEv.error exc], SchedState.stopped, [], true, true, RunOutcome.returned⟩
    else if completed then
      ⟨[DelEv.completed], SchedState.stopped, [], true, true, RunOutcome.returned⟩
    else
      -- compareExchange(STOPPED, RUNNING); on PENDING (or STOPPED) the state
      -- is forced to RUNNING and the loop repeats once more on the still
      -- empty queue, ending in the RUNNING branch
      match st with
      | SchedState.running => ⟨[], SchedState.stopped, [], false, false, RunOutcome.returned⟩
      | SchedState.faulted => ⟨[], SchedState.faulted, [], false, false, RunOutcome.returned⟩
      | SchedState.pending => ⟨[], SchedState.stopped, [], false, false, RunOutcome.returned⟩
      | SchedState.stopped => ⟨[], SchedState.stopped, [], false, false, RunOutcome.returned⟩
  | Option.none :: rest, st =>
    -- a queued None pops but compares equal to the no-item marker
    if failed then
      if rest.isEmpty then
        ⟨[DelEv.error exc], SchedState.stopped, [], true, true, RunOutcome.returned⟩
      else runAux inner failed completed exc rest st
    else if completed then
      if rest.isEmpty then
        ⟨[DelEv.completed], SchedState.stopped, [], true, true, RunOutcome.returned⟩
      else runAux inner failed completed exc rest st
    else
      match st with
      | SchedState.running => ⟨[], SchedState.stopped, rest, false, false, RunOutcome.returned⟩
      | SchedState.faulted => ⟨[], SchedState.faulted, rest, false, false, RunOutcome.returned⟩
      | SchedState.pending => runAux inner failed completed exc rest SchedState.running
      | SchedState.stopped => runAux inner failed completed exc rest SchedState.running
  | Option.some n :: rest, _st =>
    -- we found an item: state := RUNNING, then deliver
    if inner n then
      -- state := FAULTED; clearQueue drains rest, then blocks on the empty
      -- queue, so `raise e` is unreachable
      ⟨[DelEv.next (Option.some n)], SchedState.faulted, [], false, false, RunOutcome.blocked⟩
    else
      -- continuation(state): the trampoline runs the next step at once
      let r := runAux inner failed completed exc rest SchedState.running
      ⟨DelEv.next (Option.some n) :: r.events, r.state, r.queue, r.stoppedSet,
        r.disposed, r.outcome⟩

/-- One iteration of the `while True` loop of `ensureActiveSlow`
(src/rx/observer.py, lines 307-328), run without interference from other
threads.  From `stopped` the first compare-exchange wins and the loop breaks
with ownership; from `faulted` the loop returns; from `running` the second
compare-exchange moves the state to `pending` and returns `RUNNING`, so the
loop breaks without ownership; from `pending` both compare-exchange calls
leave the state unchanged and the second returns `PENDING`, so the
`(old == PENDING or old == RUNNING) and ... == RUNNING` condition is false
and the loop repeats. -/
inductive EasIter where
  | brk (st : SchedState) (isOwner : Bool)
  | ret (st : SchedState)
  | loop (st : SchedState)
deriving DecidableEq, Repr

def easStep : SchedState → EasIter
  | SchedState.stopped => EasIter.brk SchedState.running true
  | SchedState.faulted => EasIter.ret SchedState.faulted
  | SchedState.running => EasIter.brk SchedState.pending false
  | SchedState.pending => EasIter.loop SchedState.pending

def easRun : Nat → SchedState → Option (SchedState × Bool)
  | 0, _ => none
  | fuel + 1, st =>
    match easStep st with
    | EasIter.brk s o => Option.some (s, o)
    | EasIter.ret s => Option.some (s, false)
    | EasIter.loop s => easRun fuel s

lemma easRun_pending (fuel : Nat) : easRun fuel SchedState.pending = none := by
  induction fuel with
  | zero => rfl
  | succ n ih => simpa [easRun, easStep] using ih

/-! ObserveOnObserver driver (src/rx/observer.py, lines 414-429): the
producer-facing operations go through `ObserverBase` (stopped-flag check or
test-and-set), then enqueue or set the terminal flags, then call
`ensureActive`, whose slow path either returns without scheduling or — when
it wins ownership of the `Stopped` state — schedules `run`, which the
zero-latency trampoline executes at once.  Since `ensureActiveSlow` loops
forever from `pending` (lemma above), two units of loop fuel already decide
every terminating case, and exhaustion is reported as the `diverged`
outcome. -/

structure OOState where
  isStopped : Bool
  state : SchedState
  queue : List PyVal
  failed : Bool
  exc : Option Nat
  completed : Bool
  disposed : Bool
deriving DecidableEq, Repr

def freshOO : OOState := ⟨false, SchedState.stopped, [], false, none, false, false⟩

def applyRun (s : OOState) (r : RunRes) : OOState :=
  { s with state := r.state, queue := r.queue,
           isStopped := s.isStopped || r.stoppedSet,
           disposed := s.disposed || r.disposed }

def ooEnsureActive (inner : Nat → Bool) (s : OOState) :
    OOState × List DelEv × RunOutcome :=
  match easRun 2 s.state with
  | none => (s, [], RunOutcome.diverged)
  | Option.some (st, false) => ({ s with state := st }, [], RunOutcome.returned)
  | Option.some (st, true) =>
    let r := runAux inner s.failed s.completed s.exc s.queue st
    (applyRun s r, r.events, r.outcome)

def ooOnNext (inner : Nat → Bool) (s : OOState) (v : PyVal) :
    OOState × List DelEv × RunOutcome :=
  if s.isStopped then (s, [], RunOutcome.returned)
  else ooEnsureActive inner { s with queue := s.queue ++ [v] }

def ooOnError (inner : Nat → Bool) (s : OOState) (e : Nat) :
    OOState × List DelEv × RunOutcome :=
  if s.isStopped then (s, [], RunOutcome.returned)
  else ooEnsureActive inner { s with isStopped := true, failed := true, exc := Option.some e }

def ooOnCompleted (inner : Nat → Bool) (s : OOState) :
    OOState × List DelEv × RunOutcome :=
  if s.isStopped then (s, [], RunOutcome.returned)
  else ooEnsureActive inner { s with isStopped := true, completed := true }

inductive PAct where
  | pnext (v : PyVal)
  | perror (e : Nat)
  | pcompleted
deriving DecidableEq, Repr

def ooApply (inner : Nat → Bool) (s : OOState) :
    PAct → OOState × List DelEv × RunOutcome
  | PAct.pnext v => ooOnNext inner s v
  | PAct.perror e => ooOnError inner s e
  | PAct.pcompleted => ooOnCompleted inner s

def ooRun (inner : Nat → Bool) (s : OOState) : List PAct → OOState × List DelEv
  | [] => (s, [])
  | a :: rest =>
    let r1 := ooApply inner s a
    let r2 := ooRun inner r1.1 rest
    (r2.1, r1.2.1 ++ r2.2)

def innerNever : Nat → Bool := fun _ => false

def innerRaisesOn2 : Nat → Bool := fun n => n == 2

def hasNoneNext : List DelEv → Bool
  | [] => false
  | DelEv.next Option.none :: _ => true
  | _ :: rest => hasNoneNext rest

lemma hasNoneNext_cons_some (n : Nat) (rest : List DelEv) :
    hasNoneNext (DelEv.next (Option.some n) :: rest) = hasNoneNext rest := rfl

lemma runAux_never_delivers_none (inner : Nat → Bool) (failed completed : Bool)
    (exc : Option Nat) (q : List PyVal) (st : SchedState) :
    hasNoneNext (runAux inner failed completed exc q st).events = false := by
  induction q generalizing st with
  | nil =>
      cases failed <;> cases completed <;> cases exc <;> cases st <;>
        simp [runAux, hasNoneNext]
  | cons v rest ih =>
      cases v with
      | none =>
          simp only [runAux]
          by_cases hf : failed = true
          · rw [if_pos hf]
            split
            · simp [hasNoneNext]
            · exact ih st
          · rw [if_neg hf]
            by_cases hc : completed = true
            · rw [if_pos hc]
              split
              · simp [hasNoneNext]
              · exact ih st
            · rw [if_neg hc]
              cases st <;> simp [hasNoneNext, ih]
      | some n =>
          by_cases h : inner n
          · simp [runAux, h, hasNoneNext]
          · simp [runAux, h, hasNoneNext_cons_some, ih]

/-- Claim C2: on a zero-latency trampoline scheduler, calling `onNext(1)`,
`onNext(2)`, `onNext(3)`, then `onCompleted()` on a fresh `ObserveOnObserver`
makes the inner observer receive exactly `onNext(1)`, `onNext(2)`,
`onNext(3)`, `onCompleted`, in that order and with no other calls; the
dispatcher ends stopped, drained and disposed. -/
theorem observeOn_trampoline_delivers_in_order :
    ooRun innerNever freshOO
        [PAct.pnext (Option.some 1), PAct.pnext (Option.some 2),
          PAct.pnext (Option.some 3), PAct.pcompleted] =
      (⟨true, SchedState.stopped, [], false, none, true, true⟩,
        [DelEv.next (Option.some 1), DelEv.next (Option.some 2),
          DelEv.next (Option.some 3), DelEv.completed]) := by
  rfl

/-- Claim C3 (code bug evidence): with values `1, 2, 3` queued and the inner
observer raising on the second value, the delivery step delivers `1` and `2`,
moves the dispatcher to `Faulted` and drains the queue — but then
`clearQueue`'s blocking `Queue.get()` hangs on the emptied queue, so the
exception is never propagated to the caller (`blocked` outcome, never
`raised`); afterwards a producer `onNext` on the faulted dispatcher schedules
nothing and delivers nothing. -/
theorem scheduled_run_fault_drains_then_blocks :
    runAux innerRaisesOn2 false false none
        [Option.some 1, Option.some 2, Option.some 3] SchedState.running =
      ⟨[DelEv.next (Option.some 1), DelEv.next (Option.some 2)],
        SchedState.faulted, [], false, false, RunOutcome.blocked⟩ ∧
    ooOnNext innerRaisesOn2 ⟨false, SchedState.faulted, [], false, none, false, false⟩
        (Option.some 9) =
      (⟨false, SchedState.faulted, [Option.some 9], false, none, false, false⟩,
        [], RunOutcome.returned) := by
  exact ⟨rfl, rfl⟩

/-- Claim C5 (code bug evidence): in the rx revision of `ensureActiveSlow`,
a call made while the state is `Pending` with no interference never
terminates — `easRun` exhausts any amount of loop fuel without exiting —
whereas from `Faulted` the call returns as a no-op and from `Stopped` it
transitions to `Running` and wins ownership, scheduling exactly one recursive
delivery step. -/
theorem ensureActiveSlow_pending_spins :
    (∀ fuel : Nat, easRun fuel SchedState.pending = none) ∧
    easRun 2 SchedState.faulted = Option.some (SchedState.faulted, false) ∧
    easRun 2 SchedState.stopped = Option.some (SchedState.running, true) ∧
    easStep SchedState.pending = EasIter.loop SchedState.pending := by
  exact ⟨easRun_pending, rfl, rfl, rfl⟩

/-- Claim C10: a queued `None` is indistinguishable from an empty queue — the
delivery step never delivers a `None` value to the inner observer for any
queue, state and flags, and a fresh `ObserveOnObserver` fed `None` via
`onNext` pops it as "no item" and proceeds to the `Running` to `Stopped`
transition, delivering nothing; with the completed flag set, a queued `None`
likewise leads to the terminal-flag check. -/
theorem scheduled_none_value_treated_as_empty :
    (∀ (inner : Nat → Bool) (failed completed : Bool) (exc : Option Nat)
        (q : List PyVal) (st : SchedState),
      hasNoneNext (runAux inner failed completed exc q st).events = false) ∧
    ooOnNext innerNever freshOO none =
      (⟨false, SchedState.stopped, [], false, none, false, false⟩,
        [], RunOutcome.returned) ∧
    runAux innerNever false true none [none] SchedState.running =
      ⟨[DelEv.completed], SchedState.stopped, [], true, true, RunOutcome.returned⟩ := by
  exact ⟨fun inner failed completed exc q st =>
    runAux_never_delivers_none inner failed completed exc q st, rfl, rfl⟩

/-! ### ScheduledObserver.dispatch, dedicated-thread strategy
(src/rx/observer.py, lines 264-295)

The dispatch routine waits on the counting semaphore (modelled as a permit
count; an `acquire` with no permit left blocks the thread), checks the
cancellation flag, and enters the inner `while True` loop: a blocking
`queue.get()` (blocks on an empty queue), delivery, another `acquire` and
cancellation check.  The inner loop has no `break`, so the only translation
of the `if self.failed` / `if self.completed` code after it is behind an
inner-loop exit kind (`brk`) that no branch of the loop ever produces.  A
delivery fault calls `clearQueue`, which drains the rest and then blocks
(see the trampoline section), then would re-raise. -/

inductive DExit where
  | ret
  | blockedGet
  | blockedSem
  | blockedClear
  | brk
deriving DecidableEq, Repr

def DExit.isBrk : DExit → Bool
  | DExit.brk => true
  | _ => false

structure DispRes where
  events : List DelEv
  permits : Nat
  queue : List PyVal
  exit : DExit
deriving DecidableEq, Repr

def dispatchInner (innerRaises : PyVal → Bool) (cancelled : Bool) :
    List PyVal → Nat → DispRes
  | [], permits => ⟨[], permits, [], DExit.blockedGet⟩
  | v :: rest, permits =>
    if innerRaises v then
      ⟨[DelEv.next v], permits, [], DExit.blockedClear⟩
    else if permits = 0 then ⟨[DelEv.next v], 0, rest, DExit.blockedSem⟩
    else if cancelled then ⟨[DelEv.next v], permits - 1, rest, DExit.ret⟩
    else
      let r := dispatchInner innerRaises cancelled rest (permits - 1)
      ⟨DelEv.next v :: r.events, r.permits, r.queue, r.exit⟩

def dispatch (innerRaises : PyVal → Bool) (cancelled failed completed : Bool)
    (exc : Option Nat) (q : List PyVal) (permits : Nat) : DispRes :=
  if permits = 0 then ⟨[], 0, q, DExit.blockedSem⟩
  else if cancelled then ⟨[], permits - 1, q, DExit.ret⟩
  else
    let r := dispatchInner innerRaises cancelled q (permits - 1)
    match r.exit with
    | DExit.brk =>
      -- terminal checks of lines 285-295; only reachable were the inner
      -- loop to fall through
      if failed then ⟨r.events ++ [DelEv.error exc], r.permits, r.queue, DExit.ret⟩
      else if completed then
        ⟨r.events ++ [DelEv.completed], r.permits, r.queue, DExit.ret⟩
      else ⟨r.events, r.permits, r.queue, DExit.brk⟩
    | e => ⟨r.events, r.permits, r.queue, e⟩

lemma dispatchInner_no_brk (innerRaises : PyVal → Bool) (cancelled : Bool)
    (q : List PyVal) : ∀ permits : Nat,
    ((dispatchInner innerRaises cancelled q permits).exit.isBrk) = false := by
  induction q with
  | nil => intro permits; rfl
  | cons v rest ih =>
      intro permits
      simp only [dispatchInner]
      by_cases h1 : innerRaises v = true
      · rw [if_pos h1]; rfl
      · rw [if_neg h1]
        by_cases h2 : permits = 0
        · rw [if_pos h2]; rfl
        · rw [if_neg h2]
          by_cases h3 : cancelled = true
          · rw [if_pos h3]; rfl
          · rw [if_neg h3]
            exact ih (permits - 1)

/-- Claim C4 (code bug evidence): woken with one enqueued value, the
completed flag set and two semaphore permits (one per item plus one for the
terminal), the dedicated-thread dispatch routine delivers the value, consumes
both permits and then blocks forever in the blocking `queue.get()` on the
empty queue — no `onCompleted` is ever delivered and the routine never
returns, because the inner loop never produces the fall-through exit that
guards the failed/completed checks, for any inner behaviour, queue, permit
count or cancellation flag. -/
theorem dispatch_never_reaches_terminal_check :
    dispatch (fun _ => false) false false true none [Option.some 1] 2 =
      ⟨[DelEv.next (Option.some 1)], 0, [], DExit.blockedGet⟩ ∧
    (∀ (innerRaises : PyVal → Bool) (cancelled : Bool) (q : List PyVal)
        (permits : Nat),
      ((dispatchInner innerRaises cancelled q permits).exit.isBrk) = false) := by
  exact ⟨rfl, fun i c q p => dispatchInner_no_brk i c q p⟩

end RxPython
